import Mathlib

/-!
# A verification of the janus scalar autograd engine

Shallow embedding of `src/janus/_src/tensor.py`: the `Tensor` node record,
the `Tensor.__init__` validation, `Function.__call__` (graph construction),
the concrete `Add` operation, and the recursive `Tensor.backward` pass.

Modelling choices, stated once:

* Python floats are modelled by `PyFloat`: an exact rational for finite
  values, plus `nan`, `inf` and `ninf`.  Rounding of finite-float
  arithmetic is abstracted to exact rational arithmetic; the special
  values follow IEEE rules for addition.
* A Python `int` (which includes `bool`, a subclass of `int`) is modelled
  by `PyData.intVal`; a Python `float` by `PyData.floatVal`.  The source's
  `isinstance(data, float)` check is the match on these constructors.
* Python's heap of `Tensor` objects is a store: a list of node records
  addressed by index.  The `creators` field of a node holds store indices;
  in Python it holds object references, so an index that misses the store
  (`getNode = none`) is unreachable for stores built through the API, and
  the corresponding branches are dead.
* Python's unbounded recursion in `backward` is modelled with fuel;
  running out of fuel is Python's `RecursionError`.  The public entry
  `backwardT` supplies fuel equal to the store size, which is an upper
  bound on the creator-chain depth of every store built through the
  constructor (creators always pre-exist the node that records them).
* Exceptions raised by `backward` abort the call but do not roll back
  mutations already performed, exactly as in Python; the error value
  therefore carries the store at the point of failure.
* The runtime check `isinstance(grad, float)` at the top of `backward`
  is the match on the `PyData` argument.
-/

namespace Janus

/-- A Python float value: a finite value (abstracted to an exact rational),
or one of the special values NaN, +inf, -inf. -/
inductive PyFloat where
  | finite (q : ℚ)
  | nan
  | inf
  | ninf
deriving DecidableEq

/-- Addition of Python floats: NaN absorbs; opposite infinities give NaN;
an infinity otherwise dominates; finite values add exactly. -/
def PyFloat.add : PyFloat → PyFloat → PyFloat
  | .nan, _ => .nan
  | _, .nan => .nan
  | .inf, .ninf => .nan
  | .ninf, .inf => .nan
  | .inf, _ => .inf
  | _, .inf => .inf
  | .ninf, _ => .ninf
  | _, .ninf => .ninf
  | .finite a, .finite b => .finite (a + b)

/-- A Python value supplied to the `Tensor` constructor or to `backward`:
an `int` (Python `bool` included, being a subclass of `int`) or a `float`. -/
inductive PyData where
  | intVal (n : ℤ)
  | floatVal (x : PyFloat)
deriving DecidableEq

/-- The Python exceptions the embedded code can raise. -/
inductive Err where
  | typeError
  | indexError
  | keyError
  | recursionError
deriving DecidableEq

/-- The concrete `Function` subclasses defined in `tensor.py`.  `Add` is
the only one; the file defines no `Multiply` and no `__mul__`. -/
inductive Func where
  | add
deriving DecidableEq

/-- The fields of a `Tensor` object: `data`, `creators`, `creation_op`,
`grad` (mirroring `Tensor.__init__`).  `creators` holds store indices. -/
structure Tensor where
  data : PyFloat
  creators : Option (List Nat)
  creation_op : Option Func
  grad : Option PyFloat
deriving DecidableEq

/-- The heap of `Tensor` objects, addressed by index. -/
abbrev Store := List Tensor

/-- Dereference a node; `none` models a dangling index, unreachable for
stores built through the API. -/
def getNode (s : Store) (i : Nat) : Option Tensor := s[i]?

/-- Write a node back to the store. -/
def setNode (s : Store) (i : Nat) (nd : Tensor) : Store := s.set i nd

/-- Models `Tensor.__init__`: `float` data is stored (any float, NaN and
infinities included); anything else raises `TypeError('Tensor data must be
float')`.  On success the new node is appended and its index returned;
`grad` starts as `None`. -/
def mkTensor (s : Store) (data : PyData) (creators : Option (List Nat))
    (creation_op : Option Func) : Except Err (Store × Nat) :=
  match data with
  | .floatVal x => .ok (s ++ [⟨x, creators, creation_op, none⟩], s.length)
  | .intVal _ => .error .typeError

/-- Construction of a leaf tensor, `Tensor(data)`: no creators, no op. -/
def newScalar (s : Store) (data : PyData) : Except Err (Store × Nat) :=
  mkTensor s data none none

/-- The forward rule of each `Function` subclass, applied to the unpacked
operand values; a call with the wrong number of arguments is a Python
`TypeError`.  `Add.forward(x, y)` returns `x + y`. -/
def Func.forwardF : Func → List PyFloat → Except Err PyFloat
  | .add, [x, y] => .ok (x.add y)
  | .add, _ => .error .typeError

/-- The backward rule of each `Function` subclass: `Add.backward(grad)`
returns `(grad, grad)`. -/
def Func.backwardRule : Func → PyData → List PyData
  | .add, g => [g, g]

/-- Dereference a list of operand references (the `*tensors` of
`Function.__call__`); `none` only on a dangling index, which Python's
object references cannot produce. -/
def readAll (s : Store) : List Nat → Option (List Tensor)
  | [] => some []
  | i :: is =>
    match getNode s i, readAll s is with
    | some nd, some nds => some (nd :: nds)
    | _, _ => none

/-- Models `Function.__call__`: read each operand's `data`, run the
forward rule on those values, and construct the result node with
`creators` = the operand references and `creation_op` = this operation. -/
def applyF (op : Func) (s : Store) (ids : List Nat) : Except Err (Store × Nat) :=
  match readAll s ids with
  | none => .error .keyError
  | some nds =>
    match op.forwardF (nds.map Tensor.data) with
    | .error e => .error e
    | .ok out => mkTensor s (.floatVal out) (some ids) (some op)

/-- Models `Tensor.__add__`: `Add()(self, other)`. -/
def addT (s : Store) (i j : Nat) : Except Err (Store × Nat) :=
  applyF .add s [i, j]

/-- One gradient-accumulation step, the source line
`self.grad = grad if self.grad is None else self.grad + grad`. -/
def addOnce (old : Option PyFloat) (g : PyFloat) : Option PyFloat :=
  some (match old with
    | none => g
    | some h => h.add g)

/-- The loop `for i, creator in enumerate(self.creators):
creator.backward(grads[i])`, with `step` the recursive backward call.
Running past the end of `grads` is the `IndexError` of `grads[i]`;
creators beyond `grads` being exhausted never run; surplus gradients are
ignored.  An error carries the store at the point of failure: Python does
not roll back earlier iterations. -/
def runSeq (step : Store → Nat → PyData → Except (Err × Store) Store) :
    Store → List Nat → List PyData → Except (Err × Store) Store
  | s, [], _ => .ok s
  | s, _ :: _, [] => .error (.indexError, s)
  | s, c :: cs, g :: gs =>
    match step s c g with
    | .error e => .error e
    | .ok s2 => runSeq step s2 cs gs

/-- The body of `Tensor.backward`, parameterised by the recursive call
`recB`: check the gradient is a float, accumulate it into `self.grad`,
then, when a `creation_op` is present, fan the *incoming* gradient out
through the op's backward rule to the creators. -/
def backwardStep (recB : Store → Nat → PyData → Except (Err × Store) Store)
    (s : Store) (i : Nat) (g : PyData) : Except (Err × Store) Store :=
  match g with
  | .intVal _ => .error (.typeError, s)
  | .floatVal gf =>
    match getNode s i with
    | none => .error (.keyError, s)
    | some nd =>
      let s1 := setNode s i { nd with grad := addOnce nd.grad gf }
      match nd.creation_op with
      | none => .ok s1
      | some op =>
        match nd.creators with
        | none => .error (.typeError, s1)
        | some cs => runSeq recB s1 cs (Func.backwardRule op g)

/-- `Tensor.backward` with an explicit recursion-depth bound; exhausting
it is Python's `RecursionError`. -/
def backwardAux : Nat → Store → Nat → PyData → Except (Err × Store) Store
  | 0 => fun s _ _ => .error (.recursionError, s)
  | fuel + 1 => backwardStep (backwardAux fuel)

/-- The public `Tensor.backward` entry point on node `i`: the store size
bounds the creator-chain depth of every store built through the API, so
this fuel reproduces Python's unbounded recursion there. -/
def backwardT (s : Store) (i : Nat) (g : PyData) : Except (Err × Store) Store :=
  backwardAux s.length s i g

/-- The store an aborted or completed backward call leaves behind. -/
def resStore : Except (Err × Store) Store → Store
  | .ok s => s
  | .error (_, s) => s

/-! ## Derived notions used to state and prove the claims -/

/-- A leaf tensor as built by `Tensor(data)`. -/
def leafT (x : PyFloat) : Tensor := ⟨x, none, none, none⟩

/-- A leaf tensor carrying an accumulated gradient. -/
def leafG (x g : PyFloat) : Tensor := ⟨x, none, none, some g⟩

/-- An `Add`-produced tensor with operand indices `i` and `j`. -/
def addNodeT (x : PyFloat) (i j : Nat) : Tensor := ⟨x, some [i, j], some .add, none⟩

/-- The creator/producer shape the public API (`Tensor(data)` and
`Tensor.__add__`) gives every node: either both absent (a leaf), or an
`Add` producer with exactly two operand references, both pointing at
nodes that existed before this one. -/
def shapeOK (idx : Nat) : Option Func → Option (List Nat) → Bool
  | none, none => true
  | some .add, some [a, b] => decide (a < idx) && decide (b < idx)
  | _, _ => false

/-- `shapeOK` read off a node. -/
def nodeInvB (idx : Nat) (nd : Tensor) : Bool := shapeOK idx nd.creation_op nd.creators

/-- `storeInvB` checked from position `k` on. -/
def storeInvAux : Nat → List Tensor → Bool
  | _, [] => true
  | k, nd :: t => nodeInvB k nd && storeInvAux (k + 1) t

/-- Every node of the store has the shape the public API maintains. -/
def storeInvB (s : Store) : Bool := storeInvAux 0 s

/-- The immutable part of a node: everything but the gradient. -/
def statics (nd : Tensor) : PyFloat × Option (List Nat) × Option Func :=
  (nd.data, nd.creators, nd.creation_op)

/-- The store with all gradients erased; `backward` never changes this. -/
def stripGrads (s : Store) : List (PyFloat × Option (List Nat) × Option Func) :=
  s.map statics

/-- `old` with `k` successive accumulations of the gradient `g`. -/
def accN (g : PyFloat) : Option PyFloat → Nat → Option PyFloat
  | m, 0 => m
  | m, k + 1 => accN g (addOnce m g) k

/-- The number of times the backward recursion started at `i` visits `v`:
one for `i` itself plus, when `i` has a producer, the visits from each
creator subtree.  Mirrors the recursion of `backwardAux`, with the same
fuel discipline. -/
def pathsAux : Nat → Store → Nat → Nat → Nat
  | 0 => fun _ _ _ => 0
  | fuel + 1 => fun s i v =>
    (if i = v then 1 else 0) +
      match getNode s i with
      | none => 0
      | some nd =>
        match nd.creation_op with
        | none => 0
        | some _ =>
          match nd.creators with
          | none => 0
          | some cs => (cs.map fun c => pathsAux fuel s c v).sum

/-- Path counts at the fuel the public entry `backwardT` uses. -/
def pathsN (s : Store) (i v : Nat) : Nat := pathsAux s.length s i v

/-- The diamond graph `n1 = Add(x, c1)`, `n2 = Add(x, c2)`,
`sink = Add(n1, n2)` over leaves `x = a`, `c1 = b`, `c2 = c`, with one
gradient slot per node (the only mutable state). -/
def diamondStore (a b c : ℚ) (g0 g1 g2 g3 g4 g5 : Option PyFloat) : Store :=
  [⟨.finite a, none, none, g0⟩, ⟨.finite b, none, none, g1⟩, ⟨.finite c, none, none, g2⟩,
    ⟨.finite (a + b), some [0, 1], some .add, g3⟩,
    ⟨.finite (a + c), some [0, 2], some .add, g4⟩,
    ⟨.finite ((a + b) + (a + c)), some [3, 4], some .add, g5⟩]

/-! ## Theorems -/

/-- Small-step evaluation: one `backward` call on a node with a producer
accumulates into the node's own gradient first, then runs the creator
loop on the incoming gradient. -/
lemma backwardAux_node (fuel : Nat) {s : Store} {i : Nat} (gf : PyFloat)
    (d : PyFloat) (cs : List Nat) (op : Func) (gr : Option PyFloat)
    (h : getNode s i = some ⟨d, some cs, some op, gr⟩) :
    backwardAux (fuel + 1) s i (.floatVal gf) =
      runSeq (backwardAux fuel) (setNode s i ⟨d, some cs, some op, addOnce gr gf⟩) cs
        (op.backwardRule (.floatVal gf)) := by
  show backwardStep (backwardAux fuel) s i (.floatVal gf) = _
  unfold backwardStep
  rw [h]

/-- Small-step evaluation: one `backward` call on a leaf (no producer)
only accumulates into that leaf's own gradient. -/
lemma backwardAux_leaf (fuel : Nat) {s : Store} {i : Nat} (gf : PyFloat)
    (d : PyFloat) (cr : Option (List Nat)) (gr : Option PyFloat)
    (h : getNode s i = some ⟨d, cr, none, gr⟩) :
    backwardAux (fuel + 1) s i (.floatVal gf) =
      .ok (setNode s i ⟨d, cr, none, addOnce gr gf⟩) := by
  show backwardStep (backwardAux fuel) s i (.floatVal gf) = _
  unfold backwardStep
  rw [h]

/-- Small-step evaluation: a successful step advances the creator loop. -/
lemma runSeq_cons_ok {step : Store → Nat → PyData → Except (Err × Store) Store}
    {s s2 : Store} {c : Nat} {cs : List Nat} {g : PyData} {gs : List PyData}
    (h : step s c g = .ok s2) :
    runSeq step s (c :: cs) (g :: gs) = runSeq step s2 cs gs := by
  simp only [runSeq]
  rw [h]

/-- Small-step evaluation: a failing step aborts the creator loop with
the failing step's store. -/
lemma runSeq_cons_err {step : Store → Nat → PyData → Except (Err × Store) Store}
    {s : Store} {c : Nat} {cs : List Nat} {g : PyData} {gs : List PyData}
    {e : Err × Store} (h : step s c g = .error e) :
    runSeq step s (c :: cs) (g :: gs) = .error e := by
  simp only [runSeq]
  rw [h]

/-- C3: Addition contract: for all finite floats `a` and `b`, constructing
leaves `x = a` and `y = b` and `z = Add(x, y)` yields a node with
`value == a + b`; after `z.Backward(g)`, `x`'s gradient is `g` and `y`'s
gradient is `g`. -/
theorem c3_addition_contract (a b g : ℚ) :
    newScalar [] (.floatVal (.finite a)) = .ok ([leafT (.finite a)], 0) ∧
    newScalar [leafT (.finite a)] (.floatVal (.finite b)) =
      .ok ([leafT (.finite a), leafT (.finite b)], 1) ∧
    addT [leafT (.finite a), leafT (.finite b)] 0 1 =
      .ok ([leafT (.finite a), leafT (.finite b), addNodeT (.finite (a + b)) 0 1], 2) ∧
    backwardT [leafT (.finite a), leafT (.finite b), addNodeT (.finite (a + b)) 0 1] 2
        (.floatVal (.finite g)) =
      .ok [leafG (.finite a) (.finite g), leafG (.finite b) (.finite g),
        ⟨.finite (a + b), some [0, 1], some .add, some (.finite g)⟩] :=
  ⟨rfl, rfl, rfl, rfl⟩

/-- C2: Shared-subgraph fan-in: for a leaf `x` used as both operands of
`p = Add(x, x)`, and for `x` an operand of two nodes feeding the same
sink (`n1 = Add(x, c1)`, `n2 = Add(x, c2)`, `sink = Add(n1, n2)`),
`Backward(g)` on the sink leaves `x`'s gradient equal to the sum of the
contributions along every path — `g + g`, i.e. `2*g`, in both cases. -/
theorem c2_shared_subgraph_fanin (a b c : ℚ) (gf : PyFloat) :
    (addT [leafT (.finite a)] 0 0 =
        .ok ([leafT (.finite a), addNodeT (.finite (a + a)) 0 0], 1) ∧
      backwardT [leafT (.finite a), addNodeT (.finite (a + a)) 0 0] 1 (.floatVal gf) =
        .ok [leafG (.finite a) (gf.add gf),
          ⟨.finite (a + a), some [0, 0], some .add, some gf⟩]) ∧
    (addT [leafT (.finite a), leafT (.finite b), leafT (.finite c)] 0 1 =
        .ok ([leafT (.finite a), leafT (.finite b), leafT (.finite c),
          addNodeT (.finite (a + b)) 0 1], 3) ∧
      addT [leafT (.finite a), leafT (.finite b), leafT (.finite c),
          addNodeT (.finite (a + b)) 0 1] 0 2 =
        .ok ([leafT (.finite a), leafT (.finite b), leafT (.finite c),
          addNodeT (.finite (a + b)) 0 1, addNodeT (.finite (a + c)) 0 2], 4) ∧
      addT [leafT (.finite a), leafT (.finite b), leafT (.finite c),
          addNodeT (.finite (a + b)) 0 1, addNodeT (.finite (a + c)) 0 2] 3 4 =
        .ok ([leafT (.finite a), leafT (.finite b), leafT (.finite c),
          addNodeT (.finite (a + b)) 0 1, addNodeT (.finite (a + c)) 0 2,
          addNodeT (.finite ((a + b) + (a + c))) 3 4], 5) ∧
      backwardT [leafT (.finite a), leafT (.finite b), leafT (.finite c),
          addNodeT (.finite (a + b)) 0 1, addNodeT (.finite (a + c)) 0 2,
          addNodeT (.finite ((a + b) + (a + c))) 3 4] 5 (.floatVal gf) =
        .ok [leafG (.finite a) (gf.add gf), leafG (.finite b) gf, leafG (.finite c) gf,
          ⟨.finite (a + b), some [0, 1], some .add, some gf⟩,
          ⟨.finite (a + c), some [0, 2], some .add, some gf⟩,
          ⟨.finite ((a + b) + (a + c)), some [3, 4], some .add, some gf⟩]) ∧
    (∀ q : ℚ, PyFloat.add (.finite q) (.finite q) = .finite (2 * q)) := by
  refine ⟨⟨rfl, rfl⟩, ⟨rfl, rfl, rfl, ?_⟩, fun q => by rw [two_mul]; rfl⟩
  have a0 : backwardT (diamondStore a b c none none none none none none) 5 (.floatVal gf) =
      runSeq (backwardAux 5) (diamondStore a b c none none none none none (some gf))
        [3, 4] [.floatVal gf, .floatVal gf] :=
    backwardAux_node 5 gf (.finite ((a + b) + (a + c))) [3, 4] .add none rfl
  have a1 : backwardAux 5 (diamondStore a b c none none none none none (some gf)) 3
        (.floatVal gf) =
      runSeq (backwardAux 4) (diamondStore a b c none none none (some gf) none (some gf))
        [0, 1] [.floatVal gf, .floatVal gf] :=
    backwardAux_node 4 gf (.finite (a + b)) [0, 1] .add none rfl
  have a2 : backwardAux 4 (diamondStore a b c none none none (some gf) none (some gf)) 0
        (.floatVal gf) =
      .ok (diamondStore a b c (some gf) none none (some gf) none (some gf)) :=
    backwardAux_leaf 3 gf (.finite a) none none rfl
  have a3 : backwardAux 4 (diamondStore a b c (some gf) none none (some gf) none (some gf)) 1
        (.floatVal gf) =
      .ok (diamondStore a b c (some gf) (some gf) none (some gf) none (some gf)) :=
    backwardAux_leaf 3 gf (.finite b) none none rfl
  have h3 : backwardAux 5 (diamondStore a b c none none none none none (some gf)) 3
        (.floatVal gf) =
      .ok (diamondStore a b c (some gf) (some gf) none (some gf) none (some gf)) := by
    rw [a1, runSeq_cons_ok a2, runSeq_cons_ok a3]
    rfl
  have a4 : backwardAux 5 (diamondStore a b c (some gf) (some gf) none (some gf) none (some gf))
        4 (.floatVal gf) =
      runSeq (backwardAux 4)
        (diamondStore a b c (some gf) (some gf) none (some gf) (some gf) (some gf))
        [0, 2] [.floatVal gf, .floatVal gf] :=
    backwardAux_node 4 gf (.finite (a + c)) [0, 2] .add none rfl
  have a5 : backwardAux 4
        (diamondStore a b c (some gf) (some gf) none (some gf) (some gf) (some gf)) 0
        (.floatVal gf) =
      .ok (diamondStore a b c (some (gf.add gf)) (some gf) none (some gf) (some gf) (some gf)) :=
    backwardAux_leaf 3 gf (.finite a) none (some gf) rfl
  have a6 : backwardAux 4
        (diamondStore a b c (some (gf.add gf)) (some gf) none (some gf) (some gf) (some gf)) 2
        (.floatVal gf) =
      .ok (diamondStore a b c (some (gf.add gf)) (some gf) (some gf) (some gf) (some gf)
        (some gf)) :=
    backwardAux_leaf 3 gf (.finite c) none none rfl
  have h4 : backwardAux 5 (diamondStore a b c (some gf) (some gf) none (some gf) none (some gf))
        4 (.floatVal gf) =
      .ok (diamondStore a b c (some (gf.add gf)) (some gf) (some gf) (some gf) (some gf)
        (some gf)) := by
    rw [a4, runSeq_cons_ok a5, runSeq_cons_ok a6]
    rfl
  show backwardT (diamondStore a b c none none none none none none) 5 (.floatVal gf) =
    .ok (diamondStore a b c (some (gf.add gf)) (some gf) (some gf) (some gf) (some gf) (some gf))
  rw [a0, runSeq_cons_ok h3, runSeq_cons_ok h4]
  rfl

/-- C4: the multiplication contract cannot hold: `Add` is the only
`Function` subclass `tensor.py` defines — there is no `Multiply` and no
`__mul__`, so `t1 * t2` raises `TypeError` although the repository's own
test suite exercises it. -/
theorem c4_no_multiply_exists (f : Func) : f = Func.add := by
  cases f
  rfl

/-- C5 counterexample: constructing a node with NaN, +inf or -inf does
not fail — each is a `float` instance, so `Tensor.__init__` accepts it
and a node is created. -/
theorem c5_counterexample :
    newScalar [] (.floatVal .nan) = .ok ([leafT .nan], 0) ∧
    newScalar [] (.floatVal .inf) = .ok ([leafT .inf], 0) ∧
    newScalar [] (.floatVal .ninf) = .ok ([leafT .ninf], 0) :=
  ⟨rfl, rfl, rfl⟩

/-- C5 amended: the constructor accepts every `float` value — NaN and the
infinities included — and creates a node for it; it rejects non-float
data with `TypeError`.  No finiteness check exists. -/
theorem c5_nonfinite_accepted :
    (∀ (s : Store) (x : PyFloat),
      newScalar s (.floatVal x) = .ok (s ++ [leafT x], s.length)) ∧
    (∀ (s : Store) (n : ℤ), newScalar s (.intVal n) = .error .typeError) :=
  ⟨fun _ _ => rfl, fun _ _ => rfl⟩

/-- C10: a Python `int` — `bool` included, being an `int` subclass and
not a `float` — is rejected by `Tensor.__init__` with `TypeError`,
whatever the other arguments; exactly the `float` instances are accepted
as node data. -/
theorem c10_int_rejected :
    (∀ (s : Store) (n : ℤ) (cr : Option (List Nat)) (op : Option Func),
      mkTensor s (.intVal n) cr op = .error .typeError) ∧
    (∀ (s : Store) (x : PyFloat) (cr : Option (List Nat)) (op : Option Func),
      mkTensor s (.floatVal x) cr op = .ok (s ++ [⟨x, cr, op, none⟩], s.length)) :=
  ⟨fun _ _ _ _ => rfl, fun _ _ _ _ => rfl⟩

/-- C8 counterexample: `Backward` is not atomic.  On a node built by the
public constructor with three creators but the two-gradient `Add`
producer, `backward(1.0)` raises `IndexError` at `grads[2]` — after the
node's own gradient and the first two creators' gradients were already
accumulated.  The store carried by the error differs from the original:
the half-applied mutations persist. -/
theorem c8_counterexample :
    mkTensor [leafT (.finite 1), leafT (.finite 1), leafT (.finite 1)]
        (.floatVal (.finite 3)) (some [0, 1, 2]) (some .add) =
      .ok ([leafT (.finite 1), leafT (.finite 1), leafT (.finite 1),
        ⟨.finite 3, some [0, 1, 2], some .add, none⟩], 3) ∧
    backwardT [leafT (.finite 1), leafT (.finite 1), leafT (.finite 1),
        ⟨.finite 3, some [0, 1, 2], some .add, none⟩] 3 (.floatVal (.finite 1)) =
      .error (.indexError,
        [leafG (.finite 1) (.finite 1), leafG (.finite 1) (.finite 1), leafT (.finite 1),
          ⟨.finite 3, some [0, 1, 2], some .add, some (.finite 1)⟩]) ∧
    leafG (.finite 1) (.finite 1) ≠ leafT (.finite 1) :=
  ⟨rfl, rfl, by decide⟩

/-- C8 amended: a single `Apply` is atomic — it either completes, having
appended exactly one new node and touched no existing one, or fails with
no node created.  A failure inside `Backward` is surfaced synchronously
at the triggering call, but the gradient accumulations performed before
the failure point persist: in the concrete wrong-arity scenario, the
node's own gradient and the first two creators' gradients remain set in
the store the error leaves behind. -/
theorem c8_failure_semantics :
    (∀ (op : Func) (s : Store) (ids : List Nat) (s' : Store) (k : Nat),
      applyF op s ids = .ok (s', k) →
        ∃ x, s' = s ++ [⟨x, some ids, some op, none⟩] ∧ k = s.length) ∧
    backwardT [leafT (.finite 1), leafT (.finite 1), leafT (.finite 1),
        ⟨.finite 3, some [0, 1, 2], some .add, none⟩] 3 (.floatVal (.finite 1)) =
      .error (.indexError,
        [leafG (.finite 1) (.finite 1), leafG (.finite 1) (.finite 1), leafT (.finite 1),
          ⟨.finite 3, some [0, 1, 2], some .add, some (.finite 1)⟩]) := by
  refine ⟨?_, rfl⟩
  intro op s ids s' k h
  unfold applyF at h
  split at h
  · cases h
  · split at h
    · cases h
    · unfold mkTensor at h
      injection h with h2
      cases h2
      exact ⟨_, rfl, rfl⟩

/-- C8 witness: the `Apply` atomicity conjunct at a concrete input. -/
theorem c8_failure_semantics_witness :
    ∃ x, [leafT (.finite 2), addNodeT (.finite (2 + 2)) 0 0] =
      [leafT (.finite 2)] ++ [⟨x, some [0, 0], some .add, none⟩] ∧
      1 = [leafT (.finite 2)].length :=
  c8_failure_semantics.1 .add [leafT (.finite 2)] [0, 0]
    [leafT (.finite 2), addNodeT (.finite (2 + 2)) 0 0] 1 rfl

/-- C6: in every `Backward` call on a non-leaf node the node's own
gradient is accumulated before recursing — the creator loop runs on the
store that already holds the accumulated gradient — and the producer's
backward rule receives the incoming gradient exactly as received, handing
each operand that same incoming gradient, not the post-accumulation
total. -/
theorem c6_accumulate_before_recurse (fuel : Nat) (s : Store) (i : Nat) (gf : PyFloat)
    (d : PyFloat) (cs : List Nat) (op : Func) (gr : Option PyFloat)
    (h : getNode s i = some ⟨d, some cs, some op, gr⟩) :
    backwardAux (fuel + 1) s i (.floatVal gf) =
      runSeq (backwardAux fuel) (setNode s i ⟨d, some cs, some op, addOnce gr gf⟩) cs
        (op.backwardRule (.floatVal gf)) ∧
    op.backwardRule (.floatVal gf) = [.floatVal gf, .floatVal gf] :=
  ⟨backwardAux_node fuel gf d cs op gr h, by cases op; rfl⟩

/-- C6 witness: the non-leaf backward step at a concrete graph. -/
theorem c6_accumulate_before_recurse_witness :
    backwardAux 2 [leafT (.finite 1), leafT (.finite 2), addNodeT (.finite 3) 0 1] 2
        (.floatVal (.finite 5)) =
      runSeq (backwardAux 1)
        (setNode [leafT (.finite 1), leafT (.finite 2), addNodeT (.finite 3) 0 1] 2
          ⟨.finite 3, some [0, 1], some .add, addOnce none (.finite 5)⟩)
        [0, 1] (Func.backwardRule .add (.floatVal (.finite 5))) ∧
    Func.backwardRule .add (.floatVal (.finite 5)) =
      [.floatVal (.finite 5), .floatVal (.finite 5)] :=
  c6_accumulate_before_recurse 1 [leafT (.finite 1), leafT (.finite 2), addNodeT (.finite 3) 0 1]
    2 (.finite 5) (.finite 3) [0, 1] .add none rfl

/-- A successful dereference implies the index is in range. -/
lemma getNode_lt_length {s : Store} {i : Nat} {nd : Tensor} (h : getNode s i = some nd) :
    i < s.length :=
  (List.getElem?_eq_some_iff.mp h).1

/-- Reading the invariant of one node out of `storeInvAux`. -/
lemma storeInvAux_get : ∀ (s : List Tensor) (k i : Nat) (nd : Tensor),
    storeInvAux k s = true → s[i]? = some nd → nodeInvB (k + i) nd = true := by
  intro s
  induction s with
  | nil =>
    intro k i nd _ h
    cases h
  | cons hd t ih =>
    intro k i nd hinv hget
    rw [storeInvAux, Bool.and_eq_true] at hinv
    cases i with
    | zero =>
      rw [List.getElem?_cons_zero] at hget
      cases hget
      exact hinv.1
    | succ j =>
      rw [List.getElem?_cons_succ] at hget
      have := ih (k + 1) j nd hinv.2 hget
      rw [show k + (j + 1) = k + 1 + j by omega]
      exact this

/-- Reading the invariant of one node out of `storeInvB`. -/
lemma storeInvB_node {s : Store} {i : Nat} {nd : Tensor} (hs : storeInvB s = true)
    (h : getNode s i = some nd) : nodeInvB i nd = true := by
  have := storeInvAux_get s 0 i nd hs h
  rwa [Nat.zero_add] at this

/-- The two shapes `nodeInvB` allows. -/
lemma nodeInvB_cases {i : Nat} {nd : Tensor} (h : nodeInvB i nd = true) :
    (nd.creation_op = none ∧ nd.creators = none) ∨
    ∃ a b, nd.creation_op = some .add ∧ nd.creators = some [a, b] ∧ a < i ∧ b < i := by
  obtain ⟨d, cr, cop, gr⟩ := nd
  rcases cop with _ | f
  · rcases cr with _ | l
    · exact .inl ⟨rfl, rfl⟩
    · exact absurd h (by exact fun hh => Bool.noConfusion hh)
  · cases f
    rcases cr with _ | l
    · exact absurd h (by exact fun hh => Bool.noConfusion hh)
    · rcases l with _ | ⟨x, _ | ⟨y, _ | ⟨z, t⟩⟩⟩
      · exact absurd h (by exact fun hh => Bool.noConfusion hh)
      · exact absurd h (by exact fun hh => Bool.noConfusion hh)
      · have h' : (decide (x < i) && decide (y < i)) = true := h
        rw [Bool.and_eq_true, decide_eq_true_eq, decide_eq_true_eq] at h'
        exact .inr ⟨x, y, rfl, rfl, h'.1, h'.2⟩
      · exact absurd h (by exact fun hh => Bool.noConfusion hh)

/-- `storeInvAux` over an appended node. -/
lemma storeInvAux_append : ∀ (s : List Tensor) (k : Nat) (nd : Tensor),
    storeInvAux k (s ++ [nd]) = (storeInvAux k s && nodeInvB (k + s.length) nd) := by
  intro s
  induction s with
  | nil =>
    intro k nd
    simp [storeInvAux]
  | cons hd t ih =>
    intro k nd
    rw [List.cons_append, storeInvAux, ih (k + 1) nd, storeInvAux, Bool.and_assoc,
      List.length_cons, show k + 1 + t.length = k + (t.length + 1) by omega]

/-- `storeInvB` over an appended node. -/
lemma storeInvB_append (s : Store) (nd : Tensor) :
    storeInvB (s ++ [nd]) = (storeInvB s && nodeInvB s.length nd) := by
  have := storeInvAux_append s 0 nd
  rwa [Nat.zero_add] at this

/-- C7: the public API (`Tensor(data)` and `Tensor.__add__`) keeps every
node in one of two shapes — producer and operands both absent, or an
`Add` producer with exactly two earlier operands — so producer-absent and
operands-absent/empty never disagree; and `Backward` on a leaf only
accumulates that leaf's own gradient, with no recursion and no other node
mutated. -/
theorem c7_leaf_invariant :
    (∀ (s : Store) (x : PyFloat) (s' : Store) (k : Nat), storeInvB s = true →
        newScalar s (.floatVal x) = .ok (s', k) → storeInvB s' = true) ∧
    (∀ (s : Store) (i j : Nat) (s' : Store) (k : Nat), storeInvB s = true →
        i < s.length → j < s.length → addT s i j = .ok (s', k) → storeInvB s' = true) ∧
    (∀ (s : Store) (i : Nat) (nd : Tensor), storeInvB s = true → getNode s i = some nd →
        (nd.creation_op = none ↔ (nd.creators = none ∨ nd.creators = some []))) ∧
    (∀ (fuel : Nat) (s : Store) (i : Nat) (gf : PyFloat) (d : PyFloat)
        (cr : Option (List Nat)) (gr : Option PyFloat),
        getNode s i = some ⟨d, cr, none, gr⟩ →
        backwardAux (fuel + 1) s i (.floatVal gf) =
          .ok (setNode s i ⟨d, cr, none, addOnce gr gf⟩)) := by
  refine ⟨?_, ?_, ?_, ?_⟩
  · intro s x s' k hs h
    injection h with h1
    cases h1
    rw [storeInvB_append, hs]
    rfl
  · intro s i j s' k hs hi hj h
    have hri : getNode s i = some s[i] := List.getElem?_eq_getElem hi
    have hrj : getNode s j = some s[j] := List.getElem?_eq_getElem hj
    have hr : readAll s [i, j] = some [s[i], s[j]] := by
      rw [readAll, hri, readAll, hrj, readAll]
    unfold addT applyF at h
    rw [hr] at h
    injection h with h1
    cases h1
    rw [storeInvB_append, hs]
    simp [nodeInvB, shapeOK, hi, hj]
  · intro s i nd hs h
    rcases nodeInvB_cases (storeInvB_node hs h) with ⟨hop, hcr⟩ | ⟨x, y, hop, hcr, _, _⟩
    · rw [hop, hcr]
      simp
    · rw [hop, hcr]
      simp
  · intro fuel s i gf d cr gr h
    exact backwardAux_leaf fuel gf d cr gr h

/-- C7 witness: the four conjuncts at concrete inputs. -/
theorem c7_leaf_invariant_witness :
    storeInvB ([leafT (.finite 2)] ++ [leafT (.finite 7)]) = true ∧
    storeInvB ([leafT (.finite 1), leafT (.finite 2)] ++
      [addNodeT (.finite (1 + 2)) 0 1]) = true ∧
    ((leafT (.finite 9)).creation_op = none ↔
      ((leafT (.finite 9)).creators = none ∨ (leafT (.finite 9)).creators = some [])) ∧
    backwardAux 1 [leafT (.finite 2)] 0 (.floatVal (.finite 4)) =
      .ok (setNode [leafT (.finite 2)] 0 ⟨.finite 2, none, none, addOnce none (.finite 4)⟩) :=
  ⟨c7_leaf_invariant.1 [leafT (.finite 2)] (.finite 7)
      ([leafT (.finite 2)] ++ [leafT (.finite 7)]) 1 rfl rfl,
    c7_leaf_invariant.2.1 [leafT (.finite 1), leafT (.finite 2)] 0 1
      ([leafT (.finite 1), leafT (.finite 2)] ++ [addNodeT (.finite (1 + 2)) 0 1]) 2 rfl
      (by decide) (by decide) rfl,
    c7_leaf_invariant.2.2.1 [leafT (.finite 9)] 0 (leafT (.finite 9)) rfl rfl,
    c7_leaf_invariant.2.2.2 0 [leafT (.finite 2)] 0 (.finite 4) (.finite 2) none none rfl⟩

/-- Small-step evaluation: a non-float gradient is rejected before any
mutation. -/
lemma backwardAux_int (fuel : Nat) (s : Store) (i : Nat) (n : ℤ) :
    backwardAux (fuel + 1) s i (.intVal n) = .error (.typeError, s) := rfl

/-- Small-step evaluation: a dangling reference fails before any
mutation (unreachable through the API, where creators are references). -/
lemma backwardAux_dangling (fuel : Nat) {s : Store} {i : Nat} (gf : PyFloat)
    (h : getNode s i = none) :
    backwardAux (fuel + 1) s i (.floatVal gf) = .error (.keyError, s) := by
  show backwardStep (backwardAux fuel) s i (.floatVal gf) = _
  unfold backwardStep
  rw [h]

/-- Small-step evaluation: a producer with absent creators fails (Python
iterates over `None`) — after the node's own gradient was accumulated. -/
lemma backwardAux_nocr (fuel : Nat) {s : Store} {i : Nat} (gf : PyFloat)
    (d : PyFloat) (op : Func) (gr : Option PyFloat)
    (h : getNode s i = some ⟨d, none, some op, gr⟩) :
    backwardAux (fuel + 1) s i (.floatVal gf) =
      .error (.typeError, setNode s i ⟨d, none, some op, addOnce gr gf⟩) := by
  show backwardStep (backwardAux fuel) s i (.floatVal gf) = _
  unfold backwardStep
  rw [h]

/-- Updating a node while keeping its statics keeps the store's statics. -/
lemma stripGrads_set : ∀ (s : Store) (i : Nat) (nd nd' : Tensor),
    getNode s i = some nd → statics nd' = statics nd →
    stripGrads (setNode s i nd') = stripGrads s := by
  intro s
  induction s with
  | nil =>
    intro i nd nd' h _
    exact absurd h (by simp [getNode])
  | cons hd t ih =>
    intro i nd nd' h hst
    cases i with
    | zero =>
      rw [getNode, List.getElem?_cons_zero] at h
      cases h
      show stripGrads (nd' :: t) = stripGrads (hd :: t)
      simp only [stripGrads, List.map_cons]
      rw [show statics nd' = statics hd from hst]
    | succ j =>
      rw [getNode, List.getElem?_cons_succ] at h
      show stripGrads (hd :: setNode t j nd') = stripGrads (hd :: t)
      simp only [stripGrads, List.map_cons]
      rw [show List.map statics (setNode t j nd') = List.map statics t from ih j nd nd' h hst]

/-- `backward` never changes a `data`, `creators` or `creation_op` field,
whether it completes or aborts: only gradients are mutated. -/
lemma backward_stripGrads : ∀ (fuel : Nat) (s : Store) (i : Nat) (g : PyData),
    stripGrads (resStore (backwardAux fuel s i g)) = stripGrads s := by
  intro fuel
  induction fuel with
  | zero =>
    intro s i g
    rfl
  | succ f ih =>
    have loop : ∀ (cs : List Nat) (gs : List PyData) (s : Store),
        stripGrads (resStore (runSeq (backwardAux f) s cs gs)) = stripGrads s := by
      intro cs
      induction cs with
      | nil =>
        intro gs s
        rfl
      | cons c ct ihc =>
        intro gs s
        cases gs with
        | nil => rfl
        | cons g gt =>
          cases hb : backwardAux f s c g with
          | error e =>
            rw [runSeq_cons_err hb]
            have h1 := ih s c g
            rw [hb] at h1
            exact h1
          | ok s2 =>
            rw [runSeq_cons_ok hb]
            have h1 := ih s c g
            rw [hb] at h1
            exact (ihc gt s2).trans h1
    intro s i g
    cases g with
    | intVal n => rfl
    | floatVal gf =>
      cases hg : getNode s i with
      | none =>
        rw [backwardAux_dangling f gf hg]
        rfl
      | some nd =>
        obtain ⟨d, cr, cop, gr⟩ := nd
        rcases cop with _ | op
        · rw [backwardAux_leaf f gf d cr gr hg]
          exact stripGrads_set s i ⟨d, cr, none, gr⟩ ⟨d, cr, none, addOnce gr gf⟩ hg rfl
        · rcases cr with _ | cs
          · rw [backwardAux_nocr f gf d op gr hg]
            exact stripGrads_set s i ⟨d, none, some op, gr⟩
              ⟨d, none, some op, addOnce gr gf⟩ hg rfl
          · rw [backwardAux_node f gf d cs op gr hg]
            exact (loop cs (Func.backwardRule op (.floatVal gf))
                (setNode s i ⟨d, some cs, some op, addOnce gr gf⟩)).trans
              (stripGrads_set s i ⟨d, some cs, some op, gr⟩
                ⟨d, some cs, some op, addOnce gr gf⟩ hg rfl)

/-- C9: frame property of `Backward` — values are write-once.  Erasing
every gradient (`stripGrads` keeps `data`, `creators`, `creation_op`)
commutes with any backward call, completed or aborted: only gradient
fields are ever mutated.  In the concrete scenario `t3 = t1 + t2`,
`t3.Backward(1.0)` leaves `t1.value` and `t2.value` unchanged while
setting the three gradients. -/
theorem c9_frame_property :
    (∀ (fuel : Nat) (s : Store) (i : Nat) (g : PyData),
      stripGrads (resStore (backwardAux fuel s i g)) = stripGrads s) ∧
    (∀ (s : Store) (i : Nat) (g : PyData),
      stripGrads (resStore (backwardT s i g)) = stripGrads s) ∧
    backwardT [leafT (.finite 1), leafT (.finite 2), addNodeT (.finite (1 + 2)) 0 1] 2
        (.floatVal (.finite 1)) =
      .ok [leafG (.finite 1) (.finite 1), leafG (.finite 2) (.finite 1),
        ⟨.finite (1 + 2), some [0, 1], some .add, some (.finite 1)⟩] :=
  ⟨backward_stripGrads, fun s i g => backward_stripGrads s.length s i g, rfl⟩

/-- Iterated accumulation composes additively. -/
lemma accN_add (g : PyFloat) : ∀ (j k : Nat) (m : Option PyFloat),
    accN g (accN g m j) k = accN g m (j + k) := by
  intro j
  induction j with
  | zero =>
    intro k m
    rw [Nat.zero_add]
    rfl
  | succ j ih =>
    intro k m
    rw [show j + 1 + k = (j + k) + 1 by omega]
    show accN g (accN g (addOnce m g) j) k = accN g (addOnce m g) (j + k)
    exact ih k (addOnce m g)

/-- Equal statics means equal length. -/
lemma length_eq_of_strip {s s' : Store} (h : stripGrads s' = stripGrads s) :
    s'.length = s.length := by
  have := congrArg List.length h
  simpa [stripGrads] using this

/-- Equal statics means pointwise equal statics. -/
lemma getNode_statics_of_strip {s s' : Store} (h : stripGrads s' = stripGrads s) (v : Nat) :
    (getNode s' v).map statics = (getNode s v).map statics := by
  have := congrArg (fun l => l[v]?) h
  simpa [stripGrads, getNode, List.getElem?_map] using this

/-- `nodeInvB` only reads the statics. -/
lemma nodeInvB_statics {k : Nat} {x y : Tensor} (h : statics x = statics y) :
    nodeInvB k x = nodeInvB k y := by
  unfold nodeInvB
  rw [show x.creation_op = y.creation_op from congrArg (fun p => p.2.2) h,
    show x.creators = y.creators from congrArg (fun p => p.2.1) h]

/-- `storeInvAux` only reads the statics. -/
lemma storeInvAux_strip : ∀ (s s' : List Tensor) (k : Nat),
    stripGrads s' = stripGrads s → storeInvAux k s' = storeInvAux k s := by
  intro s
  induction s with
  | nil =>
    intro s' k h
    cases s' with
    | nil => rfl
    | cons hd' t' => exact absurd h (by simp [stripGrads])
  | cons hd t ih =>
    intro s' k h
    cases s' with
    | nil => exact absurd h (by simp [stripGrads])
    | cons hd' t' =>
      simp only [stripGrads, List.map_cons, List.cons.injEq] at h
      show (nodeInvB k hd' && storeInvAux (k + 1) t') = (nodeInvB k hd && storeInvAux (k + 1) t)
      rw [nodeInvB_statics h.1, ih t' (k + 1) h.2]

/-- A gradient-only store update and the invariant. -/
lemma storeInvB_strip {s s' : Store} (h : stripGrads s' = stripGrads s) :
    storeInvB s' = storeInvB s :=
  storeInvAux_strip s s' 0 h

/-- Reading back the node just written. -/
lemma getNode_set_self {s : Store} {i : Nat} (h : i < s.length) (nd : Tensor) :
    getNode (setNode s i nd) i = some nd :=
  List.getElem?_set_self h

/-- Reading another slot after a write. -/
lemma getNode_set_ne {s : Store} {i j : Nat} (h : i ≠ j) (nd : Tensor) :
    getNode (setNode s i nd) j = getNode s j :=
  List.getElem?_set_ne h

/-- The one-step unfolding of the visit count. -/
lemma pathsAux_succ (fuel : Nat) (s : Store) (i v : Nat) :
    pathsAux (fuel + 1) s i v =
      (if i = v then 1 else 0) +
        match getNode s i with
        | none => 0
        | some nd =>
          match nd.creation_op with
          | none => 0
          | some _ =>
            match nd.creators with
            | none => 0
            | some cs => (cs.map fun c => pathsAux fuel s c v).sum := rfl

/-- A dangling start index is never visited below itself. -/
lemma pathsAux_dangling (fuel : Nat) {s : Store} {i : Nat} (v : Nat)
    (h : getNode s i = none) :
    pathsAux (fuel + 1) s i v = if i = v then 1 else 0 := by
  rw [pathsAux_succ, h]
  rfl

/-- A leaf is visited once when it is the start node, not at all
otherwise. -/
lemma pathsAux_leaf (fuel : Nat) {s : Store} {i : Nat} (v : Nat) (d : PyFloat)
    (cr : Option (List Nat)) (gr : Option PyFloat)
    (h : getNode s i = some ⟨d, cr, none, gr⟩) :
    pathsAux (fuel + 1) s i v = if i = v then 1 else 0 := by
  rw [pathsAux_succ, h]
  rfl

/-- A producer node with absent creators recurses nowhere. -/
lemma pathsAux_nocr (fuel : Nat) {s : Store} {i : Nat} (v : Nat) (d : PyFloat)
    (op : Func) (gr : Option PyFloat)
    (h : getNode s i = some ⟨d, none, some op, gr⟩) :
    pathsAux (fuel + 1) s i v = if i = v then 1 else 0 := by
  rw [pathsAux_succ, h]
  rfl

/-- Visits through a producer node: itself plus the creator subtrees. -/
lemma pathsAux_op (fuel : Nat) {s : Store} {i : Nat} (v : Nat) (d : PyFloat)
    (cs : List Nat) (op : Func) (gr : Option PyFloat)
    (h : getNode s i = some ⟨d, some cs, some op, gr⟩) :
    pathsAux (fuel + 1) s i v =
      (if i = v then 1 else 0) + (cs.map fun c => pathsAux fuel s c v).sum := by
  rw [pathsAux_succ, h]

/-- Visits through an `Add` node: itself plus both creator subtrees. -/
lemma pathsAux_node (fuel : Nat) {s : Store} {i : Nat} (v : Nat) (d : PyFloat)
    (a b : Nat) (op : Func) (gr : Option PyFloat)
    (h : getNode s i = some ⟨d, some [a, b], some op, gr⟩) :
    pathsAux (fuel + 1) s i v =
      (if i = v then 1 else 0) + (pathsAux fuel s a v + pathsAux fuel s b v) := by
  rw [pathsAux_op fuel v d [a, b] op gr h]
  simp

/-- The visit count only reads the statics. -/
lemma pathsAux_strip : ∀ (fuel : Nat) {s s' : Store},
    stripGrads s' = stripGrads s → ∀ (i v : Nat),
    pathsAux fuel s' i v = pathsAux fuel s i v := by
  intro fuel
  induction fuel with
  | zero =>
    intro s s' _ i v
    rfl
  | succ f ih =>
    intro s s' h i v
    have hv := getNode_statics_of_strip h i
    cases hg : getNode s i with
    | none =>
      have hg' : getNode s' i = none := by
        rw [hg] at hv
        simpa using hv
      rw [pathsAux_dangling f v hg, pathsAux_dangling f v hg']
    | some nd =>
      have hsome : (getNode s' i).map statics = some (statics nd) := by
        rw [hv, hg]
        rfl
      obtain ⟨nd', hg', hst⟩ : ∃ nd', getNode s' i = some nd' ∧ statics nd' = statics nd := by
        cases hgg : getNode s' i with
        | none =>
          rw [hgg] at hsome
          cases hsome
        | some x =>
          rw [hgg] at hsome
          exact ⟨x, rfl, by injection hsome⟩
      obtain ⟨d, cr, cop, gr⟩ := nd
      obtain ⟨d2, cr2, cop2, gr2⟩ := nd'
      simp only [statics, Prod.mk.injEq] at hst
      obtain ⟨rfl, rfl, rfl⟩ := hst
      cases cop2 with
      | none => rw [pathsAux_leaf f v d2 cr2 gr hg, pathsAux_leaf f v d2 cr2 gr2 hg']
      | some op =>
        cases cr2 with
        | none => rw [pathsAux_nocr f v d2 op gr hg, pathsAux_nocr f v d2 op gr2 hg']
        | some cs =>
          rw [pathsAux_op f v d2 cs op gr hg, pathsAux_op f v d2 cs op gr2 hg']
          have : (fun c => pathsAux f s' c v) = fun c => pathsAux f s c v :=
            funext fun c => ih h c v
          rw [this]

/-- Under the API invariant, the backward recursion started at `c` never
reaches an index above `c`: all creators point strictly downward. -/
lemma pathsAux_zero_of_lt : ∀ (fuel : Nat) (s : Store), storeInvB s = true →
    ∀ (c v : Nat), c < v → pathsAux fuel s c v = 0 := by
  intro fuel
  induction fuel with
  | zero =>
    intro s _ c v _
    rfl
  | succ f ih =>
    intro s hinv c v hcv
    cases hg : getNode s c with
    | none => rw [pathsAux_dangling f v hg, if_neg (by omega)]
    | some nd =>
      rcases nodeInvB_cases (storeInvB_node hinv hg) with ⟨hop, hcr⟩ | ⟨x, y, hop, hcr, hx, hy⟩
      · have hnd : nd = ⟨nd.data, nd.creators, none, nd.grad⟩ := by rw [← hop]
        rw [pathsAux_leaf f v nd.data nd.creators nd.grad (hg.trans (congrArg some hnd)),
          if_neg (by omega)]
      · have hnd : nd = ⟨nd.data, some [x, y], some .add, nd.grad⟩ := by rw [← hop, ← hcr]
        rw [pathsAux_node f v nd.data x y .add nd.grad (hg.trans (congrArg some hnd)),
          if_neg (by omega), ih s hinv x v (by omega), ih s hinv y v (by omega)]

/-- Under the API invariant the start node is counted exactly once. -/
lemma pathsAux_self (fuel : Nat) {s : Store} {i : Nat} (hinv : storeInvB s = true)
    {nd : Tensor} (hg : getNode s i = some nd) : pathsAux (fuel + 1) s i i = 1 := by
  rcases nodeInvB_cases (storeInvB_node hinv hg) with ⟨hop, hcr⟩ | ⟨a, b, hop, hcr, ha, hb⟩
  · have hnd : nd = ⟨nd.data, nd.creators, none, nd.grad⟩ := by rw [← hop]
    rw [pathsAux_leaf fuel i nd.data nd.creators nd.grad (hg.trans (congrArg some hnd)),
      if_pos rfl]
  · have hnd : nd = ⟨nd.data, some [a, b], some .add, nd.grad⟩ := by rw [← hop, ← hcr]
    rw [pathsAux_node fuel i nd.data a b .add nd.grad (hg.trans (congrArg some hnd)),
      if_pos rfl, pathsAux_zero_of_lt fuel s hinv a i ha,
      pathsAux_zero_of_lt fuel s hinv b i hb]

/-- The main characterisation of one `backward` call on an API-shaped
store: it succeeds and adds, to every node's gradient, one accumulation
of `gf` per visit — i.e. per path from the start node. -/
lemma backward_run : ∀ (fuel : Nat) (s : Store) (i : Nat) (gf : PyFloat),
    storeInvB s = true → i < s.length → i < fuel →
    ∃ s', backwardAux fuel s i (.floatVal gf) = .ok s' ∧
      ∀ v, getNode s' v =
        (getNode s v).map fun nd =>
          { nd with grad := accN gf nd.grad (pathsAux fuel s i v) } := by
  intro fuel
  induction fuel with
  | zero =>
    intro s i gf _ _ h
    omega
  | succ f ih =>
    intro s i gf hinv hilen hif
    have hg : getNode s i = some s[i] := List.getElem?_eq_getElem hilen
    rcases nodeInvB_cases (storeInvB_node hinv hg) with ⟨hop, hcr⟩ | ⟨a, b, hop, hcr, ha, hb⟩
    · have hnd : s[i] = ⟨s[i].data, s[i].creators, none, s[i].grad⟩ := by rw [← hop]
      have hg' : getNode s i = some ⟨s[i].data, s[i].creators, none, s[i].grad⟩ :=
        hg.trans (congrArg some hnd)
      refine ⟨setNode s i ⟨s[i].data, s[i].creators, none, addOnce s[i].grad gf⟩,
        backwardAux_leaf f gf s[i].data s[i].creators s[i].grad hg', ?_⟩
      intro v
      by_cases hvi : v = i
      · subst hvi
        rw [getNode_set_self hilen, hg', pathsAux_leaf f v s[v].data s[v].creators s[v].grad hg',
          if_pos rfl]
        rfl
      · have hvi' : i ≠ v := fun hh => hvi hh.symm
        rw [getNode_set_ne hvi', pathsAux_leaf f v s[i].data s[i].creators s[i].grad hg',
          if_neg hvi']
        cases getNode s v with
        | none => rfl
        | some m => rfl
    · have hnd : s[i] = ⟨s[i].data, some [a, b], some .add, s[i].grad⟩ := by rw [← hop, ← hcr]
      have hg' : getNode s i = some ⟨s[i].data, some [a, b], some .add, s[i].grad⟩ :=
        hg.trans (congrArg some hnd)
      have hstrip1 : stripGrads (setNode s i
          ⟨s[i].data, some [a, b], some .add, addOnce s[i].grad gf⟩) = stripGrads s :=
        stripGrads_set s i ⟨s[i].data, some [a, b], some .add, s[i].grad⟩
          ⟨s[i].data, some [a, b], some .add, addOnce s[i].grad gf⟩ hg' rfl
      have hinv1 : storeInvB (setNode s i
          ⟨s[i].data, some [a, b], some .add, addOnce s[i].grad gf⟩) = true := by
        rw [storeInvB_strip hstrip1]
        exact hinv
      have hlen1 : (setNode s i
          ⟨s[i].data, some [a, b], some .add, addOnce s[i].grad gf⟩).length = s.length :=
        length_eq_of_strip hstrip1
      obtain ⟨s2, hrun2, hchar2⟩ := ih (setNode s i
          ⟨s[i].data, some [a, b], some .add, addOnce s[i].grad gf⟩) a gf hinv1
        (by omega) (by omega)
      have hstrip2 : stripGrads s2 = stripGrads (setNode s i
          ⟨s[i].data, some [a, b], some .add, addOnce s[i].grad gf⟩) := by
        have hd := backward_stripGrads f (setNode s i
          ⟨s[i].data, some [a, b], some .add, addOnce s[i].grad gf⟩) a (.floatVal gf)
        rw [hrun2] at hd
        exact hd
      have hinv2 : storeInvB s2 = true := by
        rw [storeInvB_strip hstrip2]
        exact hinv1
      have hlen2 : s2.length = (setNode s i
          ⟨s[i].data, some [a, b], some .add, addOnce s[i].grad gf⟩).length :=
        length_eq_of_strip hstrip2
      obtain ⟨s3, hrun3, hchar3⟩ := ih s2 b gf hinv2 (by omega) (by omega)
      refine ⟨s3, ?_, ?_⟩
      · rw [backwardAux_node f gf s[i].data [a, b] .add s[i].grad hg']
        show runSeq (backwardAux f) (setNode s i
          ⟨s[i].data, some [a, b], some .add, addOnce s[i].grad gf⟩)
          [a, b] [.floatVal gf, .floatVal gf] = .ok s3
        rw [runSeq_cons_ok hrun2, runSeq_cons_ok hrun3]
        rfl
      · intro v
        rw [hchar3 v, hchar2 v]
        simp only [pathsAux_strip f (hstrip2.trans hstrip1) b v, pathsAux_strip f hstrip1 a v]
        by_cases hvi : v = i
        · subst hvi
          rw [getNode_set_self hilen, hg']
          simp only [pathsAux_zero_of_lt f s hinv a v ha, pathsAux_zero_of_lt f s hinv b v hb,
            pathsAux_self f hinv hg]
          rfl
        · have hvi' : i ≠ v := fun hh => hvi hh.symm
          rw [getNode_set_ne hvi']
          simp only [pathsAux_node f v s[i].data a b .add s[i].grad hg', if_neg hvi',
            Nat.zero_add]
          cases getNode s v with
          | none => rfl
          | some m =>
            show some (Tensor.mk m.data m.creators m.creation_op
                (accN gf (accN gf m.grad (pathsAux f s a v)) (pathsAux f s b v))) =
              some (Tensor.mk m.data m.creators m.creation_op
                (accN gf m.grad (pathsAux f s a v + pathsAux f s b v)))
            rw [accN_add gf (pathsAux f s a v) (pathsAux f s b v) m.grad]

/-- C1 counterexample: for `p = Add(x, x)`, calling `Backward` on `p`
with `g1 = 1.0` and then `g2 = 1.0` leaves the reached leaf `x` with
gradient `4.0` (each call contributes once per path, and there are two
paths), not `g1 + g2 = 2.0` as the claim states. -/
theorem c1_counterexample :
    backwardT [leafT (.finite 1), addNodeT (.finite (1 + 1)) 0 0] 1 (.floatVal (.finite 1)) =
      .ok [⟨.finite 1, none, none, some (.finite (1 + 1))⟩,
        ⟨.finite (1 + 1), some [0, 0], some .add, some (.finite 1)⟩] ∧
    backwardT [⟨.finite 1, none, none, some (.finite (1 + 1))⟩,
        ⟨.finite (1 + 1), some [0, 0], some .add, some (.finite 1)⟩] 1 (.floatVal (.finite 1)) =
      .ok [⟨.finite 1, none, none, some (.finite (1 + 1 + 1 + 1))⟩,
        ⟨.finite (1 + 1), some [0, 0], some .add, some (.finite (1 + 1))⟩] ∧
    PyFloat.finite (1 + 1 + 1 + 1) ≠ PyFloat.add (.finite 1) (.finite 1) :=
  ⟨rfl, rfl, by norm_num [PyFloat.add]⟩

/-- C1 (amended): gradient accumulation never overwrites — a `Backward`
call sets the entry node's gradient when absent and adds to it otherwise;
and after calling `Backward` on node `i` with `g1` then `g2`, every leaf
`v` carries its old gradient plus `k` accumulations of `g1` followed by
`k` of `g2`, where `k` is the number of paths from `i` to `v` — in
particular exactly `g1 + g2` on every previously-ungraded leaf reached
along exactly one path. -/
theorem c1_gradient_accumulation (s : Store) (i : Nat) (g1 g2 : PyFloat) (s1 s2 : Store)
    (hinv : storeInvB s = true) (hi : i < s.length)
    (h1 : backwardT s i (.floatVal g1) = .ok s1)
    (h2 : backwardT s1 i (.floatVal g2) = .ok s2) :
    (∀ nd, getNode s i = some nd →
      getNode s1 i = some { nd with grad := addOnce nd.grad g1 }) ∧
    (∀ v nd, getNode s v = some nd → nd.creation_op = none →
      getNode s2 v =
        some { nd with grad := accN g2 (accN g1 nd.grad (pathsN s i v)) (pathsN s i v) } ∧
      (pathsN s i v = 1 → nd.grad = none →
        getNode s2 v = some { nd with grad := some (g1.add g2) })) := by
  obtain ⟨s1', hrun1, hchar1⟩ := backward_run s.length s i g1 hinv hi hi
  have hs1 : s1 = s1' := by
    injection h1.symm.trans hrun1
  subst hs1
  have hstrip1 : stripGrads s1 = stripGrads s := by
    have hd := backward_stripGrads s.length s i (.floatVal g1)
    rw [hrun1] at hd
    exact hd
  have hinv1 : storeInvB s1 = true := by
    rw [storeInvB_strip hstrip1]
    exact hinv
  have hlen1 : s1.length = s.length := length_eq_of_strip hstrip1
  obtain ⟨s2', hrun2, hchar2⟩ := backward_run s1.length s1 i g2 hinv1 (by omega) (by omega)
  have hs2 : s2 = s2' := by
    injection h2.symm.trans hrun2
  subst hs2
  constructor
  · intro nd hg
    rw [hchar1 i, hg]
    obtain ⟨k, hk⟩ : ∃ k, s.length = k + 1 := ⟨s.length - 1, by omega⟩
    simp only [hk, pathsAux_self k hinv hg]
    rfl
  · intro v nd hg hop
    have key : getNode s2 v =
        some { nd with grad := accN g2 (accN g1 nd.grad (pathsN s i v)) (pathsN s i v) } := by
      rw [hchar2 v, hchar1 v, hg]
      simp only [hlen1, pathsAux_strip s.length hstrip1 i v]
      rfl
    refine ⟨key, fun hk1 hgr => ?_⟩
    rw [key, hk1, hgr]
    rfl

/-- C1 witness: `z = x + y`, backward twice with `1.0` then `2.0`; the
leaf `x` is reached along one path and ends with gradient `1.0 + 2.0`. -/
theorem c1_gradient_accumulation_witness :
    storeInvB [leafT (.finite 5), leafT (.finite 7), addNodeT (.finite (5 + 7)) 0 1] = true ∧
    getNode [⟨.finite 5, none, none, some (.finite (1 + 2))⟩,
        ⟨.finite 7, none, none, some (.finite (1 + 2))⟩,
        ⟨.finite (5 + 7), some [0, 1], some .add, some (.finite (1 + 2))⟩] 0 =
      some ⟨.finite 5, none, none, some (PyFloat.add (.finite 1) (.finite 2))⟩ :=
  ⟨rfl,
    ((c1_gradient_accumulation
        [leafT (.finite 5), leafT (.finite 7), addNodeT (.finite (5 + 7)) 0 1] 2
        (.finite 1) (.finite 2)
        [⟨.finite 5, none, none, some (.finite 1)⟩,
          ⟨.finite 7, none, none, some (.finite 1)⟩,
          ⟨.finite (5 + 7), some [0, 1], some .add, some (.finite 1)⟩]
        [⟨.finite 5, none, none, some (.finite (1 + 2))⟩,
          ⟨.finite 7, none, none, some (.finite (1 + 2))⟩,
          ⟨.finite (5 + 7), some [0, 1], some .add, some (.finite (1 + 2))⟩]
        rfl (by decide) rfl rfl).2 0 (leafT (.finite 5)) rfl rfl).2 rfl rfl⟩

end Janus
